import Mathlib

/-!
Verification of the pytorch-data-api pipeline engine against its
natural-language specification.

The Python sources are shallowly embedded as Lean functions:

* `src/torch_data/_ops/_batch.py` — strategy registry (`_STRATEGIES`,
  `chooseStrategy`), the default container (`make_batch`, `insertAll`) and
  the batch iterator (`batchLoop`, `batchNext`, `batchRun`).
* `src/torch_data/_ops/_window.py` — the window iterator
  (`windowFill`, `windowNext`, `windowRun`).
* `src/torch_data/_ops/_window_padded.py` — the padded window iterator
  (`padFill`, `padNext`); its helper `_BatchPaddedHelper` lives in
  `_batch_padded.py`, which is not among the sources, so `padMakeBatch`
  is modelled from the spec (see its doc comment).
* `src/torch_data/_dataset.py` — argument validation of `batch`, `window`
  and `prefetch`, the `map` concurrency normalisation and `__aiter__`.
* `src/torch_data/_sources/_tensors.py` — the single-record tensor source.

Records are modelled as opaque values of a type `α`; a batch/window
container slot is an `Option α` (`none` is Python `None`, the content of an
unfilled slot of the default strategy's `[None] * batch_size` container).
-/

namespace TorchData

/-! ### Strategy registry (`_batch.py`, lines 2-87) -/

/-- Python runtime types that can occur at a tuple position of a sample. -/
inductive PyType
  | pfloat
  | pint
  | pndarray
  | ptensor
  | pstr
  | plist
  | ptype
deriving DecidableEq

/-- The three strategy classes registered in `_STRATEGIES`. -/
inductive StrategyKind
  | defaultS
  | numpyS
  | torchS
deriving DecidableEq

/-- `is_supported` of each strategy class: `_DefaultStrategy.is_supported`
returns `True` for everything; `_NumpyStrategy` supports `np.ndarray`,
`float` and `int`; `_TorchStrategy` supports `torch.Tensor`. -/
def strategyIsSupported : StrategyKind → PyType → Bool
  | StrategyKind.defaultS, _ => true
  | StrategyKind.numpyS, t => t == PyType.pndarray || t == PyType.pfloat || t == PyType.pint
  | StrategyKind.torchS, t => t == PyType.ptensor

/-- The `_STRATEGIES` registry in registration order: `_DefaultStrategy`
is appended first (line 20), `_NumpyStrategy` second (line 40),
`_TorchStrategy` third (line 63). -/
def STRATEGIES : List StrategyKind :=
  [StrategyKind.defaultS, StrategyKind.numpyS, StrategyKind.torchS]

/-- The `for s in _STRATEGIES: if s.is_supported(t): return s` loop of
`_BatchHelper.__init__.chooser`; the `for`-`else` raises
`ValueError('Unsupported')` when no strategy matches. -/
def chooseFrom (t : PyType) : List StrategyKind → Except String StrategyKind
  | [] => Except.error "Unsupported"
  | s :: rest => if strategyIsSupported s t then Except.ok s else chooseFrom t rest

/-- `chooser(t)` as called from `_BatchHelper.__init__`. -/
def chooseStrategy (t : PyType) : Except String StrategyKind :=
  chooseFrom t STRATEGIES

/-! ### Batch iterator (`_batch.py`, lines 90-141)

`_DefaultStrategy.make_batch` allocates `[None] * batch_size`;
`batch_insert` writes one item at an index.  A container is therefore a
`List (Option α)` of length `batch_size`. -/

/-- `_DefaultStrategy.make_batch`: the container `[None] * batch_size`. -/
def make_batch (α : Type) (batch_size : Nat) : List (Option α) :=
  List.replicate batch_size none

/-- Repeated `batch_insert(batch, idx, item)` at consecutive indices,
as done by the fill loops (`_BatchIterator.__next__` inserts at
`_batch_counter`; `_WindowIterator.__anext__` inserts at `enumerate`
indices). -/
def insertAll {α : Type} : List (Option α) → Nat → List α → List (Option α)
  | cur, _, [] => cur
  | cur, c, x :: xs => insertAll (cur.set c (some x)) (c + 1) xs

/-- The `while self._batch_counter < self._batch_size` loop of
`_BatchIterator.__next__`.  State: remaining upstream records, the current
container (`self._batch`, `none` is Python `None`) and the fill counter.
On upstream exhaustion the code sets the counter to `batch_size` (ending
the loop) and clears the container when `drop_last` is set.  Returns the
final `self._batch` and the remaining upstream records. -/
def batchLoop {α : Type} (b : Nat) (dropLast : Bool) :
    List α → Option (List (Option α)) → Nat → Option (List (Option α)) × List α
  | [], cur, c =>
      if c < b then (if dropLast then none else cur, []) else (cur, [])
  | x :: rest, cur, c =>
      if c < b then
        batchLoop b dropLast rest (some (((cur.getD (make_batch α b))).set c (some x))) (c + 1)
      else (cur, x :: rest)

/-- One call of `_BatchIterator.__next__`: the loop starts from a fresh
state (`finally` reset `self._batch = None`, `self._batch_counter = 0`);
the result is `none` exactly when the code raises `StopIteration`. -/
def batchNext {α : Type} (b : Nat) (dropLast : Bool) (src : List α) :
    Option (List (Option α)) × List α :=
  batchLoop b dropLast src none 0

/-- The remaining upstream records after `batchLoop` are a suffix, so never
longer than the input. -/
def batchLoop_rest_le {α : Type} (b : Nat) (dl : Bool) :
    ∀ (src : List α) (cur : Option (List (Option α))) (c : Nat),
      (batchLoop b dl src cur c).2.length ≤ src.length := by
  intro src
  induction src with
  | nil =>
      intro cur c
      simp only [batchLoop]
      split <;> simp
  | cons x rest ih =>
      intro cur c
      simp only [batchLoop]
      split
      · exact Nat.le_succ_of_le (ih _ _)
      · simp

/-- A call of `__next__` that emits a batch consumed at least one upstream
record. -/
def batchNext_some_lt {α : Type} (b : Nat) (dl : Bool) :
    ∀ (src : List α) (w : List (Option α)) (rest : List α),
      batchNext b dl src = (some w, rest) → rest.length < src.length := by
  intro src w rest h
  cases src with
  | nil =>
      simp only [batchNext, batchLoop] at h
      split at h
      · cases dl <;> simp_all
      · simp_all
  | cons x rest0 =>
      simp only [batchNext, batchLoop] at h
      split at h
      · have := batchLoop_rest_le b dl rest0
          (some (((none : Option (List (Option α))).getD (make_batch α b)).set 0 (some x))) 1
        rw [h] at this
        simpa using Nat.lt_succ_of_le this
      · simp_all

/-- Iterating `_BatchIterator` to exhaustion: collect every batch emitted
before the first `StopIteration`. -/
def batchRun {α : Type} (b : Nat) (dropLast : Bool) (src : List α) :
    List (List (Option α)) :=
  match h : batchNext b dropLast src with
  | (none, _) => []
  | (some w, rest) => w :: batchRun b dropLast rest
termination_by src.length
decreasing_by exact batchNext_some_lt b dropLast src w rest h

/-! ### Window iterator (`_window.py`) -/

/-- Per-session mutable state of `_WindowIterator`: `self._skip`,
`self._window`, whether `self._batch_helper` has been resolved, and the
remaining upstream records. -/
structure WState (α : Type) where
  skip : Nat
  window : List α
  helperReady : Bool
  src : List α
deriving DecidableEq

/-- The fill loop of `_WindowIterator.__anext__`
(`while len(self._window) < self._size`), with the skip-discarding inner
loop fused in: while `skip > 0` a pulled record is discarded and `skip`
decremented; at `skip = 0` the pulled record is appended (resolving
`self._batch_helper` on the first append).  Exhaustion behaves
differently on the two pull sites: the pull inside the inner skip loop
(after `skip` was decremented) breaks only the inner loop, so control
reaches the `_none` handler, which clears the window when `drop_last` is
set; the pull in the inner loop's `else` clause, however, sits in a
`break` that exits the **outer** loop directly, skipping the `drop_last`
clearing — the partially filled window survives. -/
def windowFill {α : Type} (size : Nat) (dropLast : Bool) :
    Nat → List α → List α → Bool → Nat × List α × List α × Bool
  | skip, w, [], h =>
      if w.length < size then
        match skip with
        | 0 => (0, w, [], h)
        | k + 1 => (k, if dropLast then [] else w, [], h)
      else (skip, w, [], h)
  | skip, w, x :: rest, h =>
      if w.length < size then
        match skip with
        | 0 => windowFill size dropLast 0 (w ++ [x]) rest true
        | k + 1 => windowFill size dropLast k w rest h
      else (skip, w, x :: rest, h)

/-- One call of `_WindowIterator.__anext__`: run the fill loop; raise
`StopAsyncIteration` (emit `none`) when the window is empty or the helper
was never resolved, otherwise allocate the capacity-`size` container and
insert every buffered record; then the `finally` block advances the
window: drop the first `stride` entries when `stride < len(window)`, else
clear the window and set `skip = stride - len(window)`. -/
def windowNext {α : Type} (size stride : Nat) (dropLast : Bool) (st : WState α) :
    Option (List (Option α)) × WState α :=
  match windowFill size dropLast st.skip st.window st.src st.helperReady with
  | (skip1, w1, src1, h1) =>
    let emitted := if w1.isEmpty || !h1 then none
                   else some (insertAll (make_batch α size) 0 w1)
    if stride < w1.length then
      (emitted, ⟨skip1, w1.drop stride, h1, src1⟩)
    else
      (emitted, ⟨stride - w1.length, [], h1, src1⟩)

/-- The fill loop never grows the total of buffered plus remaining
records. -/
def windowFill_sum_le {α : Type} (size : Nat) (dl : Bool) :
    ∀ (src w : List α) (skip : Nat) (h : Bool),
      (windowFill size dl skip w src h).2.2.1.length +
        (windowFill size dl skip w src h).2.1.length ≤ src.length + w.length := by
  intro src
  induction src with
  | nil =>
      intro w skip h
      cases skip with
      | zero =>
          simp only [windowFill]
          split <;> simp
      | succ k =>
          simp only [windowFill]
          split
          · split <;> simp
          · simp
  | cons x rest ih =>
      intro w skip h
      cases skip with
      | zero =>
          simp only [windowFill]
          split
          · have := ih (w ++ [x]) 0 true
            simp only [List.length_append, List.length_cons, List.length_nil] at this ⊢
            omega
          · simp
      | succ k =>
          simp only [windowFill]
          split
          · have := ih w k h
            simp only [List.length_cons]
            omega
          · simp

/-- A call of `__anext__` that emits a window strictly shrinks the measure
`remaining upstream + buffered`, provided the stride is positive. -/
def windowNext_some_lt {α : Type} (size stride : Nat) (dl : Bool) (hs : 0 < stride) :
    ∀ (st : WState α) (w : List (Option α)) (st1 : WState α),
      windowNext size stride dl st = (some w, st1) →
      st1.src.length + st1.window.length < st.src.length + st.window.length := by
  intro st w st1 h
  have hsum := windowFill_sum_le size dl st.src st.window st.skip st.helperReady
  simp only [windowNext] at h
  set r := windowFill size dl st.skip st.window st.src st.helperReady with hr
  obtain ⟨skip1, w1, src1, h1⟩ := r
  simp only at h hsum
  by_cases hw : w1.isEmpty || !h1
  · simp only [hw, if_true] at h
    split at h <;> simp_all
  · have hw1 : w1 ≠ [] := by
      intro hnil
      simp [hnil] at hw
    have hw1len : 0 < w1.length := List.length_pos.mpr hw1
    simp only [hw, if_false] at h
    split at h
    · rename_i hlt
      rw [Prod.mk.injEq] at h
      obtain ⟨h2, h3⟩ := h
      subst h3
      simp only [List.length_drop]
      omega
    · rename_i hge
      rw [Prod.mk.injEq] at h
      obtain ⟨h2, h3⟩ := h
      subst h3
      simp only [List.length_nil]
      omega

/-- Iterating `_WindowIterator` to exhaustion (positive stride): collect
every window emitted before the first `StopAsyncIteration`. -/
def windowRun {α : Type} (size stride : Nat) (hs : 0 < stride) (dropLast : Bool)
    (st : WState α) : List (List (Option α)) :=
  match hn : windowNext size stride dropLast st with
  | (none, _) => []
  | (some w, st1) => w :: windowRun size stride hs dropLast st1
termination_by st.src.length + st.window.length
decreasing_by exact windowNext_some_lt size stride dropLast hs st w st1 hn

/-- Specification-side description of the drain phase of a stride-1,
`drop_last = true` window run: once upstream is exhausted, each call still
emits the retained buffer at capacity `s` (unfilled slots `None`) and then
drops its first entry, until the buffer empties.  Used to state what
`windowRun` produces. -/
def drainWins {α : Type} (s : Nat) : List α → List (List (Option α))
  | [] => []
  | x :: t =>
      ((x :: t).map some ++ List.replicate (s - (t.length + 1)) (none : Option α)) ::
        drainWins s t

/-- Specification-side description of stride-1 sliding windows: given the
retained tail `w` of the previous window and the remaining records, emit
`(w ++ [x]).map some` for each next record `x`, retaining all but the
first entry; once the records run out, drain the retained tail as partial
windows.  Used to state what `windowRun` produces. -/
def slideWins {α : Type} (s : Nat) : List α → List α → List (List (Option α))
  | w, [] => drainWins s w
  | w, x :: rest => ((w ++ [x]).map some) :: slideWins s ((w ++ [x]).drop 1) rest

/-! ### Padded window iterator (`_window_padded.py`)

Records are modelled as single-position one-dimensional integer arrays
(`List Int`); the shape of a record is its length.  `_SampleWrapper.next`
returning a disposed sample corresponds to pulling from an exhausted
upstream list. -/

/-- Per-session mutable state of `_WindowPaddedIterator`: `self._skip`,
`self._window`, whether `self._source_iter` is still set (it is assigned
`None` on exhaustion), the remaining upstream records, and
`self._batch_helper` — `None` until the first emission, afterwards the
`_BatchPaddedHelper` built from the window it was constructed with
(modelled by that construction-time window). -/
structure PadState where
  skip : Nat
  window : List (List Int)
  alive : Bool
  src : List (List Int)
  helper : Option (List (List Int))
deriving DecidableEq

/-- Modelled from the spec: `_BatchPaddedHelper.make_batch` — the file
`_batch_padded.py` it is defined in is not among the sources.  Per the
spec, the container shape per position is the elementwise maximum over
the currently-buffered samples' shapes unless an explicit shape is
configured, positions that fall short of that shape are filled with the
configured padding value (default zero), and the shape is derived from
the samples passed to the call.  The container has capacity `size`;
unfilled slots hold all-padding rows. -/
def padMakeBatch (size : Nat) (paddedShape : Option Nat) (padValue : Int)
    (window : List (List Int)) : List (List Int) :=
  let shape := paddedShape.getD (window.foldr (fun r m => max r.length m) 0)
  window.map (fun r => r.take shape ++ List.replicate (shape - r.length) padValue) ++
    List.replicate (size - window.length) (List.replicate shape padValue)

/-- The fill loop of `_WindowPaddedIterator.__anext__`
(`while self._source_iter is not None and len(self._window) < self._size`),
with the skip-discarding inner loop fused in as for `windowFill`.  A
disposed sample sets `self._source_iter = None` (and clears the window
when `drop_last` is set); the loop condition then fails. -/
def padFill (size : Nat) (dropLast : Bool) :
    Nat → List (List Int) → Bool → List (List Int) →
      Nat × List (List Int) × Bool × List (List Int)
  | skip, w, alive, [] =>
      if alive ∧ w.length < size then (skip - 1, if dropLast then [] else w, false, [])
      else (skip, w, alive, [])
  | skip, w, alive, x :: rest =>
      if alive ∧ w.length < size then
        match skip with
        | 0 => padFill size dropLast 0 (w ++ [x]) alive rest
        | k + 1 => padFill size dropLast k w alive rest
      else (skip, w, alive, x :: rest)

/-- One call of `_WindowPaddedIterator.__anext__`: run the fill loop;
raise `StopAsyncIteration` (emit `none`) when the window is empty,
otherwise resolve `self._batch_helper` if it is still `None`
(constructing it from the current window) and emit
`self._batch_helper.make_batch(self._window)` — the call receives the
currently-buffered samples; then the `finally` block advances the window
exactly as in `_WindowIterator`. -/
def padNext (size stride : Nat) (paddedShape : Option Nat) (padValue : Int)
    (dropLast : Bool) (st : PadState) : Option (List (List Int)) × PadState :=
  match padFill size dropLast st.skip st.window st.alive st.src with
  | (skip1, w1, alive1, src1) =>
    let emitted := if w1.isEmpty then none
                   else some (padMakeBatch size paddedShape padValue w1)
    let helper1 := if w1.isEmpty then st.helper else some (st.helper.getD w1)
    if stride < w1.length then
      (emitted, ⟨skip1, w1.drop stride, alive1, src1, helper1⟩)
    else
      (emitted, ⟨stride - w1.length, [], alive1, src1, helper1⟩)

/-! ### Dataset construction surface (`_dataset.py`) -/

/-- Python values as passed to the `Dataset` construction methods. -/
inductive PyVal
  | vint (n : Int)
  | vbool (b : Bool)
  | vnone
  | vstr (s : String)
deriving DecidableEq

/-- `isinstance(v, int)`. -/
def pyIsInt : PyVal → Bool
  | PyVal.vint _ => true
  | _ => false

/-- `isinstance(v, bool)`. -/
def pyIsBool : PyVal → Bool
  | PyVal.vbool _ => true
  | _ => false

/-- The `assert` checks of `Dataset.batch` (lines 208-215): the method
asserts `isinstance(batch_size, int)` and `isinstance(drop_last, bool)`
and nothing else before constructing `BatchDataOperation`; `true` means
construction succeeds. -/
def datasetBatchValidate (batch_size drop_last : PyVal) : Bool :=
  pyIsInt batch_size && pyIsBool drop_last

/-- The `assert` checks of `Dataset.window` (lines 280-288):
`isinstance(size, int)`, `isinstance(stride, int)`,
`isinstance(drop_last, bool)` and nothing else. -/
def datasetWindowValidate (size stride drop_last : PyVal) : Bool :=
  pyIsInt size && pyIsInt stride && pyIsBool drop_last

/-- The `assert` check of `Dataset.prefetch` (lines 302-308):
`isinstance(size, int)` and nothing else. -/
def datasetPrefetchValidate (size : PyVal) : Bool :=
  pyIsInt size

/-- The normalisation of `num_parallel_calls` in `Dataset.map`
(lines 254-257): `None` becomes `0`, a negative integer becomes
`os.cpu_count()` (passed here as `cpu_count`), any other integer is kept. -/
def mapNormalizeCalls (num_parallel_calls : Option Int) (cpu_count : Int) : Int :=
  match num_parallel_calls with
  | Option.none => 0
  | Option.some k => if k < 0 then cpu_count else k

/-- Operator chains as stored in `Dataset.__source`: a leaf source, a
`PrefetchDataOperation`, or any other operation. -/
inductive OpChain
  | leaf
  | prefetchOp (buffer_size : Nat) (src : OpChain)
  | otherOp (src : OpChain)
deriving DecidableEq

/-- `isinstance(source, PrefetchDataOperation)`. -/
def isPrefetchOp : OpChain → Bool
  | OpChain.prefetchOp _ _ => true
  | _ => false

/-- A `Dataset` holds only its immutable operator chain `self.__source`. -/
structure DatasetModel where
  source : OpChain
deriving DecidableEq

/-- `Dataset.__aiter__` (lines 324-334): generate a session identifier
(`uuid.uuid4().hex`, modelled as the freshly supplied `fresh_sid`); bind a
local `source` to `self.__source`, wrapping it in
`PrefetchDataOperation(source, buffer_size=1)` when it is not already a
prefetch operation; build the iterator from the session id and that local
source.  `self.__source` is never assigned, so the dataset is returned
unchanged. -/
def datasetAiter (d : DatasetModel) (fresh_sid : Nat) : (Nat × OpChain) × DatasetModel :=
  let source := if isPrefetchOp d.source then d.source else OpChain.prefetchOp 1 d.source
  ((fresh_sid, source), d)

/-! ### Tensors source (`_sources/_tensors.py`) -/

/-- `TensorsDataSource`: holds the tuple of tensors it was constructed
with. -/
structure TensorsSource (α : Type) where
  tensors : α

/-- `_TensorsIterator`: per-session state — the session id and
`self._tensors`, which is set to `None` after the first pull. -/
structure TensorsIteratorState (α : Type) where
  session_id : Nat
  tensors : Option α

/-- `TensorsDataSource.get_iter`: a fresh `_TensorsIterator` built from
the source's stored tensors. -/
def tensorsGetIter {α : Type} (src : TensorsSource α) (sid : Nat) :
    TensorsIteratorState α :=
  ⟨sid, some src.tensors⟩

/-- `_TensorsIterator.__anext__`: raise `StopAsyncIteration` (emit `none`)
when `self._tensors is None`; otherwise return the tensors and set
`self._tensors = None`. -/
def tensorsNext {α : Type} (it : TensorsIteratorState α) :
    Option α × TensorsIteratorState α :=
  match it.tensors with
  | Option.none => (none, it)
  | Option.some t => (some t, ⟨it.session_id, none⟩)

/-! ### Unfolding lemmas for the run functions -/

theorem batchRun_of_none {α : Type} {b : Nat} {dl : Bool} {src : List α}
    (h : (batchNext b dl src).1 = none) : batchRun b dl src = [] := by
  conv_lhs => rw [batchRun.eq_def]
  split
  · rfl
  · rename_i w rest heq
    rw [heq] at h
    simp at h

theorem batchRun_of_some {α : Type} {b : Nat} {dl : Bool} {src rest : List α}
    {w : List (Option α)} (h : batchNext b dl src = (some w, rest)) :
    batchRun b dl src = w :: batchRun b dl rest := by
  conv_lhs => rw [batchRun.eq_def]
  split
  · rename_i heq
    rw [h] at heq
    simp at heq
  · rename_i w2 rest2 heq
    rw [h] at heq
    obtain ⟨h1, h2⟩ := Prod.mk.injEq .. ▸ heq
    cases h1
    cases h2
    rfl

theorem windowRun_of_none {α : Type} {size stride : Nat} {hs : 0 < stride}
    {dl : Bool} {st : WState α}
    (h : (windowNext size stride dl st).1 = none) :
    windowRun size stride hs dl st = [] := by
  conv_lhs => rw [windowRun.eq_def]
  split
  · rfl
  · rename_i w st1 heq
    rw [heq] at h
    simp at h

theorem windowRun_of_some {α : Type} {size stride : Nat} {hs : 0 < stride}
    {dl : Bool} {st st1 : WState α} {w : List (Option α)}
    (h : windowNext size stride dl st = (some w, st1)) :
    windowRun size stride hs dl st = w :: windowRun size stride hs dl st1 := by
  conv_lhs => rw [windowRun.eq_def]
  split
  · rename_i heq
    rw [h] at heq
    simp at heq
  · rename_i w2 st2 heq
    rw [h] at heq
    obtain ⟨h1, h2⟩ := Prod.mk.injEq .. ▸ heq
    cases h1
    cases h2
    rfl

/-! ### Claim C1 -/

/-- Claim C1 (code_bug evaluation): the strategy chooser of
`_BatchHelper` resolves the generic `_DefaultStrategy` for every item
type — including `float`, `np.ndarray` and `torch.Tensor` — because the
generic fallback is the first entry of `_STRATEGIES`; the claim's
preference order (numeric strategies first, fallback last, unmatched
types raising `ValueError`) does not hold: the numeric strategies and the
`ValueError` branch are unreachable. -/
theorem claim_C1_chooser_resolves_default :
    chooseStrategy PyType.pfloat = Except.ok StrategyKind.defaultS ∧
    chooseStrategy PyType.pndarray = Except.ok StrategyKind.defaultS ∧
    chooseStrategy PyType.ptensor = Except.ok StrategyKind.defaultS ∧
    ∀ t : PyType, chooseStrategy t = Except.ok StrategyKind.defaultS :=
  ⟨rfl, rfl, rfl, fun _ => rfl⟩

/-! ### Claim C6 -/

/-- Claim C6 (counterexample): in `_WindowPaddedIterator` the container
strategy is not re-derived for every emitted window: across the two
emissions below, the stored `_batch_helper` remains the one constructed
from the first window (`[[1]]`); it is never re-resolved from the second
window (`[[1, 2]]`). -/
theorem claim_C6_helper_resolved_once :
    padNext 1 1 Option.none 0 true ⟨0, [], true, [[1], [1, 2]], Option.none⟩
      = (some [[1]], ⟨0, [], true, [[1, 2]], some [[1]]⟩) ∧
    padNext 1 1 Option.none 0 true ⟨0, [], true, [[1, 2]], some [[1]]⟩
      = (some [[1, 2]], ⟨0, [], true, [], some [[1]]⟩) ∧
    (⟨0, [], true, [], some [[1]]⟩ : PadState).helper ≠ some [[1, 2]] :=
  ⟨rfl, rfl, by decide⟩

/-- Claim C6 (amended): the `_BatchPaddedHelper` is resolved once per
iterator (at the first emitted window) and then reused, but
`make_batch` is invoked with the currently buffered samples on every
emission, so — with `make_batch` modelled from the spec as deriving the
per-position pad shape from the samples passed in — every emitted
window's container is sized from its own buffer contents, independently
of the stored helper: the emitted value is a function of the fill
result alone, and two windows over records of different shapes get
differently-sized containers, as the concrete run shows. -/
theorem claim_C6_shape_from_current_window :
    (∀ (size stride : Nat) (pS : Option Nat) (pV : Int) (dl : Bool) (st : PadState),
      ((padNext size stride pS pV dl st).1 =
        (if (padFill size dl st.skip st.window st.alive st.src).2.1.isEmpty then none
         else some (padMakeBatch size pS pV
           (padFill size dl st.skip st.window st.alive st.src).2.1))) ∧
      (∀ h2 : Option (List (List Int)),
        (padNext size stride pS pV dl st).1 =
          (padNext size stride pS pV dl ⟨st.skip, st.window, st.alive, st.src, h2⟩).1)) ∧
    padNext 1 1 Option.none 0 true ⟨0, [], true, [[1], [1, 2]], Option.none⟩
      = (some [[1]], ⟨0, [], true, [[1, 2]], some [[1]]⟩) ∧
    (padNext 1 1 Option.none 0 true ⟨0, [], true, [[1, 2]], some [[1]]⟩).1
      = some [[1, 2]] := by
  refine ⟨?_, rfl, rfl⟩
  intro size stride pS pV dl st
  constructor
  · simp only [padNext]
    obtain ⟨skip1, w1, alive1, src1⟩ := padFill size dl st.skip st.window st.alive st.src
    by_cases hw : w1.isEmpty <;> split <;> simp [hw]
  · intro h2
    simp only [padNext]
    obtain ⟨skip1, w1, alive1, src1⟩ := padFill size dl st.skip st.window st.alive st.src
    by_cases hw : w1.isEmpty <;> split <;> simp [hw]

/-! ### Claim C7 -/

/-- Claim C7 (counterexample): `Dataset.batch(0)`, `Dataset.window(0, 0)`
and `Dataset.prefetch(-1)` all pass every constructor `assert` (only
`isinstance` checks are made), so no error is raised at construction for
non-positive sizes; iteration can then begin — iterating batch with
`batch_size = 0` simply yields no batches rather than failing. -/
theorem claim_C7_no_positivity_check :
    datasetBatchValidate (PyVal.vint 0) (PyVal.vbool true) = true ∧
    datasetWindowValidate (PyVal.vint 0) (PyVal.vint 0) (PyVal.vbool true) = true ∧
    datasetPrefetchValidate (PyVal.vint (-1)) = true ∧
    batchRun 0 true [(0 : Nat)] = [] :=
  ⟨rfl, rfl, rfl, batchRun_of_none rfl⟩

/-- Claim C7 (amended): the `batch`, `window` and `prefetch` construction
methods validate only the runtime types of their arguments (integer
sizes, boolean flags) — every integer, including non-positive ones, is
accepted at construction, while non-integer arguments are rejected; no
positivity check exists, and iteration can start with a non-positive
size (batching with `batch_size = 0` yields immediate exhaustion). -/
theorem claim_C7_type_checks_only :
    (∀ (n : Int) (bl : Bool), datasetBatchValidate (PyVal.vint n) (PyVal.vbool bl) = true) ∧
    (∀ (n m : Int) (bl : Bool),
      datasetWindowValidate (PyVal.vint n) (PyVal.vint m) (PyVal.vbool bl) = true) ∧
    (∀ n : Int, datasetPrefetchValidate (PyVal.vint n) = true) ∧
    datasetBatchValidate (PyVal.vstr "x") (PyVal.vbool true) = false ∧
    datasetPrefetchValidate PyVal.vnone = false ∧
    (∀ (src : List Nat) (dl : Bool), batchRun 0 dl src = []) := by
  refine ⟨fun _ _ => rfl, fun _ _ _ => rfl, fun _ => rfl, rfl, rfl, ?_⟩
  intro src dl
  cases src with
  | nil => exact batchRun_of_none rfl
  | cons x rest => exact batchRun_of_none rfl

/-! ### Claim C8 -/

/-- Claim C8: `Dataset.map` normalises `num_parallel_calls` before the
map operation is constructed: `None` becomes `0` (fully serial), every
negative integer becomes `os.cpu_count()`, and every non-negative
integer is passed through unchanged. -/
theorem claim_C8_map_normalization : ∀ cpu : Int,
    mapNormalizeCalls Option.none cpu = 0 ∧
    (∀ k : Int, k < 0 → mapNormalizeCalls (Option.some k) cpu = cpu) ∧
    (∀ k : Int, 0 ≤ k → mapNormalizeCalls (Option.some k) cpu = k) := by
  intro cpu
  refine ⟨rfl, ?_, ?_⟩
  · intro k hk
    simp [mapNormalizeCalls, if_pos hk]
  · intro k hk
    simp [mapNormalizeCalls, if_neg (not_lt.mpr hk)]

/-- Witness for claim C8 at `cpu_count = 4`, `num_parallel_calls`
unset, `-1` and `5`. -/
theorem claim_C8_map_normalization_witness :
    mapNormalizeCalls Option.none 4 = 0 ∧
    ((-1 : Int) < 0 ∧ mapNormalizeCalls (Option.some (-1)) 4 = 4) ∧
    ((0 : Int) ≤ 5 ∧ mapNormalizeCalls (Option.some 5) 4 = 5) :=
  ⟨(claim_C8_map_normalization 4).1,
   ⟨by decide, (claim_C8_map_normalization 4).2.1 (-1) (by decide)⟩,
   ⟨by decide, (claim_C8_map_normalization 4).2.2 5 (by decide)⟩⟩

/-! ### Claim C9 -/

/-- Claim C9: a `_TensorsIterator` fresh from `get_iter` yields the
complete stored tensors tuple on its first pull and moves to the
exhausted state; the exhausted state is a fixed point of `__anext__`
(exhaustion is permanent); and `get_iter` builds each session's iterator
afresh from the source's unchanged tensors, so every new session
observes the record again. -/
theorem claim_C9_tensors_single_record :
    ∀ (α : Type) (src : TensorsSource α) (sid sid2 : Nat),
      tensorsNext (tensorsGetIter src sid) =
        (some src.tensors, ⟨sid, none⟩) ∧
      tensorsNext (⟨sid, none⟩ : TensorsIteratorState α) =
        (none, (⟨sid, none⟩ : TensorsIteratorState α)) ∧
      tensorsGetIter src sid2 = ⟨sid2, some src.tensors⟩ :=
  fun _ _ _ _ => ⟨rfl, rfl, rfl⟩

/-! ### Claim C10 -/

/-- Claim C10: `Dataset.__aiter__` threads the per-call session
identifier into the iterator it builds; when the outermost operator is
already a prefetch it is used as is, otherwise the chain is wrapped in a
new prefetch stage of buffer size 1 for that iteration only; the stored
source is never modified, so repeated iterations build from the
identical operator chain. -/
theorem claim_C10_aiter_wraps_prefetch :
    ∀ (d : DatasetModel) (sid sid2 b : Nat) (inner : OpChain),
      (datasetAiter d sid).2 = d ∧
      (datasetAiter d sid).1.1 = sid ∧
      (datasetAiter ⟨OpChain.prefetchOp b inner⟩ sid).1.2 = OpChain.prefetchOp b inner ∧
      (datasetAiter ⟨OpChain.otherOp inner⟩ sid).1.2 =
        OpChain.prefetchOp 1 (OpChain.otherOp inner) ∧
      (datasetAiter ⟨OpChain.leaf⟩ sid).1.2 = OpChain.prefetchOp 1 OpChain.leaf ∧
      (datasetAiter ((datasetAiter d sid).2) sid2).1.2 = (datasetAiter d sid2).1.2 :=
  fun _ _ _ _ _ => ⟨rfl, rfl, rfl, rfl, rfl, rfl⟩

/-! ### Container filling -/

theorem insertAll_spec {α : Type} :
    ∀ (l : List α) (cur : List (Option α)) (c : Nat), c + l.length ≤ cur.length →
      insertAll cur c l = cur.take c ++ l.map some ++ cur.drop (c + l.length) := by
  intro l
  induction l with
  | nil =>
      intro cur c h
      simp [insertAll]
  | cons x xs ih =>
      intro cur c h
      simp only [List.length_cons] at h
      have hc : c < cur.length := by omega
      simp only [insertAll, List.map_cons]
      rw [ih (cur.set c (some x)) (c + 1) (by simp [List.length_set]; omega)]
      rw [List.drop_set_of_lt _ _ (show c < c + 1 + xs.length by omega)]
      have htake : (cur.set c (some x)).take (c + 1) = cur.take c ++ [some x] := by
        rw [List.set_eq_take_cons_drop _ hc]
        have hlen : (cur.take c).length = c := List.length_take_of_le (Nat.le_of_lt hc)
        calc (cur.take c ++ some x :: cur.drop (c + 1)).take (c + 1)
            = (cur.take c ++ some x :: cur.drop (c + 1)).take ((cur.take c).length + 1) := by
              rw [hlen]
          _ = cur.take c ++ (some x :: cur.drop (c + 1)).take 1 := List.take_append 1
          _ = cur.take c ++ [some x] := by rfl
      rw [htake]
      have harith : c + 1 + xs.length = c + (xs.length + 1) := by omega
      rw [harith]
      simp [List.append_assoc]

/-- Filling the fresh `[None] * size` container with `w` (as both the
batch and window emission paths do) yields the `some`-boxed records
followed by the untouched `None` slots. -/
theorem insertAll_fresh {α : Type} (size : Nat) (w : List α) (h : w.length ≤ size) :
    insertAll (make_batch α size) 0 w =
      w.map some ++ List.replicate (size - w.length) (none : Option α) := by
  rw [insertAll_spec w (make_batch α size) 0 (by simp [make_batch]; omega)]
  simp [make_batch, List.drop_replicate]

/-! ### Batch iterator characterisation -/

theorem batchLoop_fills {α : Type} (b : Nat) (dl : Bool) :
    ∀ (src : List α) (cur : List (Option α)) (c : Nat), c ≤ b → b - c ≤ src.length →
      batchLoop b dl src (some cur) c =
        (some (insertAll cur c (src.take (b - c))), src.drop (b - c)) := by
  intro src
  induction src with
  | nil =>
      intro cur c h1 h2
      simp only [List.length_nil, Nat.le_zero] at h2
      have hcb : ¬ c < b := by omega
      simp [batchLoop, hcb, h2, insertAll]
  | cons x rest ih =>
      intro cur c h1 h2
      by_cases hcb : c < b
      · simp only [batchLoop, if_pos hcb, Option.getD_some]
        rw [ih (cur.set c (some x)) (c + 1) (by omega)
            (by simp only [List.length_cons] at h2; omega)]
        have hbc : b - c = (b - (c + 1)) + 1 := by omega
        rw [hbc]
        simp [insertAll]
      · have hc0 : b - c = 0 := by omega
        simp [batchLoop, hcb, hc0, insertAll]

theorem batchLoop_exhaust {α : Type} (b : Nat) (dl : Bool) :
    ∀ (src : List α) (cur : List (Option α)) (c : Nat), src.length < b - c →
      batchLoop b dl src (some cur) c =
        (if dl then none else some (insertAll cur c src), []) := by
  intro src
  induction src with
  | nil =>
      intro cur c h
      have hcb : c < b := by omega
      simp [batchLoop, hcb, insertAll]
  | cons x rest ih =>
      intro cur c h
      simp only [List.length_cons] at h
      have hcb : c < b := by omega
      simp only [batchLoop, if_pos hcb, Option.getD_some]
      rw [ih (cur.set c (some x)) (c + 1) (by omega)]
      simp [insertAll]

theorem batchNext_zero {α : Type} (dl : Bool) (src : List α) :
    batchNext 0 dl src = (none, src) := by
  cases src <;> simp [batchNext, batchLoop]

theorem batchNext_nil {α : Type} (b : Nat) (dl : Bool) (hb : 0 < b) :
    batchNext b dl ([] : List α) = (none, []) := by
  cases dl <;> simp [batchNext, batchLoop, hb]

theorem batchNext_full {α : Type} (b : Nat) (dl : Bool) (src : List α)
    (hb : 0 < b) (h : b ≤ src.length) :
    batchNext b dl src = (some ((src.take b).map some), src.drop b) := by
  cases src with
  | nil => simp at h; omega
  | cons x rest =>
      simp only [List.length_cons] at h
      simp only [batchNext, batchLoop, if_pos hb, Option.getD_none]
      rw [batchLoop_fills b dl rest ((make_batch α b).set 0 (some x)) 1 hb (by omega)]
      have hstep : insertAll ((make_batch α b).set 0 (some x)) 1 (rest.take (b - 1)) =
          insertAll (make_batch α b) 0 (x :: rest.take (b - 1)) := rfl
      have hbc : b = (b - 1) + 1 := by omega
      rw [hstep]
      have htake : (x :: rest).take b = x :: rest.take (b - 1) := by
        conv_lhs => rw [hbc]
        rfl
      have hdrop : (x :: rest).drop b = rest.drop (b - 1) := by
        conv_lhs => rw [hbc]
        rfl
      rw [← htake, ← hdrop]
      rw [insertAll_fresh b ((x :: rest).take b)
          (by rw [List.length_take_of_le (by simp; omega)])]
      rw [List.length_take_of_le (by simp; omega)]
      simp

theorem batchNext_exhaust {α : Type} (b : Nat) (dl : Bool) (src : List α)
    (hb : 0 < b) (hne : src ≠ []) (h : src.length < b) :
    batchNext b dl src =
      (if dl then none
       else some (src.map some ++ List.replicate (b - src.length) (none : Option α)), []) := by
  cases src with
  | nil => exact absurd rfl hne
  | cons x rest =>
      simp only [List.length_cons] at h
      simp only [batchNext, batchLoop, if_pos hb, Option.getD_none]
      rw [batchLoop_exhaust b dl rest ((make_batch α b).set 0 (some x)) 1 (by omega)]
      have hstep : insertAll ((make_batch α b).set 0 (some x)) 1 rest =
          insertAll (make_batch α b) 0 (x :: rest) := rfl
      rw [hstep, insertAll_fresh b (x :: rest) (by simp; omega)]

theorem batchRun_full_step {α : Type} (b : Nat) (dl : Bool) (src : List α)
    (hb : 0 < b) (h : b ≤ src.length) :
    batchRun b dl src = (src.take b).map some :: batchRun b dl (src.drop b) :=
  batchRun_of_some (batchNext_full b dl src hb h)

theorem batchRun_true_small {α : Type} (b : Nat) (src : List α)
    (hb : 0 < b) (h : src.length < b) : batchRun b true src = [] := by
  refine batchRun_of_none ?_
  cases src with
  | nil => rw [batchNext_nil b true hb]
  | cons x rest =>
      rw [batchNext_exhaust b true (x :: rest) hb (by simp) h]
      rfl

theorem batchRun_nil {α : Type} (b : Nat) (dl : Bool) (hb : 0 < b) :
    batchRun b dl ([] : List α) = [] :=
  batchRun_of_none (by rw [batchNext_nil b dl hb])

theorem batchRun_false_small {α : Type} (b : Nat) (src : List α)
    (hb : 0 < b) (hne : src ≠ []) (h : src.length < b) :
    batchRun b false src =
      [src.map some ++ List.replicate (b - src.length) (none : Option α)] := by
  have hnext : batchNext b false src =
      (some (src.map some ++ List.replicate (b - src.length) (none : Option α)), []) := by
    rw [batchNext_exhaust b false src hb hne h]
    rfl
  rw [batchRun_of_some hnext, batchRun_nil b false hb]

theorem batchRun_true_length {α : Type} (b : Nat) (hb : 0 < b) (src : List α) :
    (batchRun b true src).length = src.length / b := by
  by_cases h : b ≤ src.length
  · rw [batchRun_full_step b true src hb h, List.length_cons,
        batchRun_true_length b hb (src.drop b), List.length_drop,
        Nat.div_eq_sub_div hb h]
  · rw [batchRun_true_small b src hb (by omega), Nat.div_eq_of_lt (by omega)]
    rfl
termination_by src.length
decreasing_by simp [List.length_drop]; omega

theorem batchRun_true_mem {α : Type} (b : Nat) (hb : 0 < b) (src : List α) :
    ∀ w ∈ batchRun b true src, ∃ chunk : List α, chunk.length = b ∧ w = chunk.map some := by
  by_cases h : b ≤ src.length
  · rw [batchRun_full_step b true src hb h]
    intro w hw
    rcases List.mem_cons.mp hw with h1 | h2
    · exact ⟨src.take b, List.length_take_of_le h, h1⟩
    · exact batchRun_true_mem b hb (src.drop b) w h2
  · rw [batchRun_true_small b src hb (by omega)]
    intro w hw
    simp at hw
termination_by src.length
decreasing_by simp [List.length_drop]; omega

theorem batchRun_true_concat {α : Type} (b : Nat) (hb : 0 < b) (src : List α) :
    ((batchRun b true src).map (fun w => w.filterMap id)).flatten =
      src.take (b * (src.length / b)) := by
  by_cases h : b ≤ src.length
  · rw [batchRun_full_step b true src hb h, List.map_cons]
    have hflat : (((src.take b).map some).filterMap id ::
        ((batchRun b true (src.drop b)).map (fun w => w.filterMap id))).flatten =
        ((src.take b).map some).filterMap id ++
          ((batchRun b true (src.drop b)).map (fun w => w.filterMap id)).flatten := rfl
    rw [hflat, batchRun_true_concat b hb (src.drop b), List.length_drop]
    have hfm : ∀ l : List α, (l.map some).filterMap id = l := by
      intro l
      induction l with
      | nil => rfl
      | cons a l ih => simp [ih]
    rw [hfm, Nat.div_eq_sub_div hb h, Nat.mul_succ,
        show b * ((src.length - b) / b) + b = b + b * ((src.length - b) / b) from
          Nat.add_comm _ _,
        List.take_add]
  · rw [batchRun_true_small b src hb (by omega), Nat.div_eq_of_lt (by omega)]
    simp
termination_by src.length
decreasing_by simp [List.length_drop]; omega

theorem batchRun_false_split {α : Type} (b : Nat) (hb : 0 < b) (src : List α)
    (hmod : src.length % b ≠ 0) :
    batchRun b false src =
      batchRun b true src ++
        [(src.drop (b * (src.length / b))).map some ++
          List.replicate (b - src.length % b) (none : Option α)] := by
  by_cases h : b ≤ src.length
  · rw [batchRun_full_step b false src hb h, batchRun_full_step b true src hb h]
    have hmodeq : (src.length - b) % b = src.length % b := by
      conv_rhs => rw [← Nat.sub_add_cancel h, Nat.add_mod_right]
    have hmod2 : (src.drop b).length % b ≠ 0 := by
      rw [List.length_drop, hmodeq]
      exact hmod
    rw [batchRun_false_split b hb (src.drop b) hmod2, List.cons_append]
    have hdropeq : (src.drop b).drop (b * ((src.drop b).length / b)) =
        src.drop (b * (src.length / b)) := by
      rw [List.drop_drop, List.length_drop]
      congr 1
      rw [Nat.div_eq_sub_div hb h, Nat.mul_succ]
      exact Nat.add_comm b _
    have hrepeq : b - (src.drop b).length % b = b - src.length % b := by
      rw [List.length_drop, hmodeq]
    rw [hdropeq, hrepeq]
  · have hlt : src.length < b := by omega
    have hne : src ≠ [] := by
      intro hnil
      rw [hnil] at hmod
      simp at hmod
    rw [batchRun_false_small b src hb hne hlt, batchRun_true_small b src hb hlt]
    have hdiv : src.length / b = 0 := Nat.div_eq_of_lt hlt
    have hm : src.length % b = src.length := Nat.mod_eq_of_lt hlt
    rw [hdiv, Nat.mul_zero, List.drop_zero, hm]
    rfl
termination_by src.length
decreasing_by simp [List.length_drop]; omega

/-! ### Window iterator characterisation -/

theorem windowFill_noFill {α : Type} (size : Nat) (dl : Bool) (skip : Nat)
    (w src : List α) (h : Bool) (hw : ¬ w.length < size) :
    windowFill size dl skip w src h = (skip, w, src, h) := by
  cases src <;> simp [windowFill, hw]

theorem windowFill_nilSrc_keep {α : Type} (size : Nat) (dl : Bool)
    (w : List α) (h : Bool) (hw : w.length < size) :
    windowFill size dl 0 w [] h = (0, w, [], h) := by
  simp [windowFill, hw]

theorem windowFill_nilSrc_skip {α : Type} (size : Nat) (dl : Bool) (k : Nat)
    (w : List α) (h : Bool) (hw : w.length < size) :
    windowFill size dl (k + 1) w [] h = (k, if dl then [] else w, [], h) := by
  simp [windowFill, hw]

theorem windowFill_fills {α : Type} (size : Nat) (dl : Bool) :
    ∀ (src w : List α) (h : Bool), w.length < size → size - w.length ≤ src.length →
      windowFill size dl 0 w src h =
        (0, w ++ src.take (size - w.length), src.drop (size - w.length), true) := by
  intro src
  induction src with
  | nil =>
      intro w h h1 h2
      simp only [List.length_nil, Nat.le_zero] at h2
      omega
  | cons x rest ih =>
      intro w h h1 h2
      simp only [List.length_cons] at h2
      simp only [windowFill, if_pos h1]
      by_cases h3 : (w ++ [x]).length < size
      · have h3l : w.length + 1 < size := by simpa using h3
        rw [ih (w ++ [x]) true h3 (by simp; omega)]
        have hsz : size - w.length = (size - (w.length + 1)) + 1 := by omega
        rw [hsz]
        simp [List.append_assoc]
      · rw [windowFill_noFill size dl 0 (w ++ [x]) rest true h3]
        have hsz : size - w.length = 1 := by simp at h3; omega
        rw [hsz]
        simp

theorem windowFill_exhaust {α : Type} (size : Nat) (dl : Bool) :
    ∀ (src w : List α) (h : Bool), w.length < size → src.length < size - w.length →
      windowFill size dl 0 w src h = (0, w ++ src, [], h || !src.isEmpty) := by
  intro src
  induction src with
  | nil =>
      intro w h h1 h2
      rw [windowFill_nilSrc_keep size dl w h h1]
      simp
  | cons x rest ih =>
      intro w h h1 h2
      simp only [List.length_cons] at h2
      have hlen : (w ++ [x]).length < size := by simp; omega
      simp only [windowFill, if_pos h1]
      rw [ih (w ++ [x]) true hlen (by simp; omega)]
      simp [List.append_assoc]

/-- `__anext__` from a state with an empty window and exhausted upstream:
no emission, and the state stays stuck apart from `skip` being reset to
`stride`. -/
theorem windowNext_stuck {α : Type} (size stride : Nat) (dl : Bool)
    (k : Nat) (h : Bool) :
    windowNext size stride dl (⟨k, [], h, []⟩ : WState α) = (none, ⟨stride, [], h, []⟩) := by
  by_cases hsz : 0 < size
  · simp only [windowNext]
    cases k with
    | zero =>
        rw [windowFill_nilSrc_keep size dl [] h (by simpa using hsz)]
        simp
    | succ k =>
        rw [windowFill_nilSrc_skip size dl k [] h (by simpa using hsz)]
        cases dl <;> simp
  · simp only [windowNext]
    rw [windowFill_noFill size dl k [] [] h (by omega)]
    simp

/-- `__anext__` with `drop_last = true` when the upstream runs out while a
skip is still pending: the exhaustion is seen by the inner skip loop, so
control reaches the `drop_last` clearing and the buffered window is
discarded — no emission. -/
theorem windowNext_skip_exhaust {α : Type} (size stride : Nat) (k : Nat)
    (w : List α) (hI : Bool) (hw : w.length < size) :
    (windowNext size stride true (⟨k + 1, w, hI, []⟩ : WState α)).1 = none := by
  simp only [windowNext]
  rw [windowFill_nilSrc_skip size true k w hI hw]
  simp

/-- One drain step of a stride-1, `drop_last = true` run: exhaustion at the
regular pull (skip counter zero) bypasses the `drop_last` clearing, so the
retained non-empty buffer is emitted at capacity `size` and then advanced
by one. -/
theorem windowNext_drain_step {α : Type} (size : Nat) (x : α) (t : List α)
    (hlt : (x :: t).length < size) :
    windowNext size 1 true (⟨0, x :: t, true, []⟩ : WState α) =
      (some ((x :: t).map some ++ List.replicate (size - (t.length + 1)) (none : Option α)),
       ⟨0, t, true, []⟩) := by
  simp only [windowNext]
  rw [windowFill_nilSrc_keep size true (x :: t) true hlt]
  simp only [List.isEmpty_cons, Bool.not_true, Bool.or_false, if_neg Bool.false_ne_true]
  rw [insertAll_fresh size (x :: t) (Nat.le_of_lt hlt)]
  simp only [List.length_cons]
  by_cases h1 : 1 < t.length + 1
  · rw [if_pos h1]
    rfl
  · rw [if_neg h1]
    have ht : t = [] := List.length_eq_zero.mp (by omega)
    subst ht
    rfl

/-- `__anext__` from a clean state (empty window, no pending skip) with at
least `size` upstream records: emits the boxed first `size` records. -/
theorem windowNext_start_full {α : Type} (size stride : Nat) (dl : Bool) (hI : Bool)
    (src : List α) (hsz : 0 < size) (h : size ≤ src.length) :
    windowNext size stride dl (⟨0, [], hI, src⟩ : WState α) =
      (some ((src.take size).map some),
       if stride < size then (⟨0, (src.take size).drop stride, true, src.drop size⟩ : WState α)
       else ⟨stride - size, [], true, src.drop size⟩) := by
  simp only [windowNext]
  rw [windowFill_fills size dl src [] hI (by simpa using hsz) (by simpa using h)]
  simp only [List.nil_append, List.length_nil, Nat.sub_zero]
  have hlen : (src.take size).length = size := List.length_take_of_le h
  have hne : (src.take size).isEmpty = false := by
    cases hsp : src.take size with
    | nil =>
        rw [hsp] at hlen
        simp at hlen
        omega
    | cons a l => rfl
  rw [insertAll_fresh size (src.take size) (le_of_eq hlen), hlen]
  simp only [hne, Bool.not_true, Bool.or_false, if_neg Bool.false_ne_true,
    Nat.sub_self, List.replicate_zero, List.append_nil]
  split <;> rfl

/-- `__anext__` from a clean state whose upstream has fewer than `size`
records (but at least one): regardless of `drop_last` — the exhaustion
happens at the regular pull, bypassing the `drop_last` clearing — the
partial window is emitted at full container capacity, unfilled slots
holding `None`. -/
theorem windowNext_start_short {α : Type} (size stride : Nat) (dl hI : Bool)
    (src : List α) (hne : src ≠ []) (h : src.length < size) :
    windowNext size stride dl (⟨0, [], hI, src⟩ : WState α) =
      (some (src.map some ++ List.replicate (size - src.length) (none : Option α)),
       if stride < src.length then (⟨0, src.drop stride, true, []⟩ : WState α)
       else ⟨stride - src.length, [], true, []⟩) := by
  simp only [windowNext]
  rw [windowFill_exhaust size dl src [] hI
      (by have := List.length_pos.mpr hne; simp; omega) (by simpa using h)]
  have hne2 : src.isEmpty = false := by
    cases src with
    | nil => exact absurd rfl hne
    | cons a l => rfl
  simp only [List.nil_append, Bool.not_true, Bool.not_false,
    Bool.or_false, Bool.or_true, Bool.false_or, hne2, if_neg Bool.false_ne_true]
  rw [insertAll_fresh size src (Nat.le_of_lt h)]
  split <;> rfl

/-- With `stride = size`, each `__anext__` from a clean state behaves
exactly like one `_BatchIterator.__next__` with `drop_last = False` on the
same upstream, whatever the window's own `drop_last` flag: a final
partial group is always emitted (exhaustion then hits the regular pull,
bypassing the `drop_last` clearing), exactly as the batch operator with
`drop_last = False` emits it. -/
theorem windowRun_stride_eq_batch {α : Type} (s : Nat) (hs : 0 < s) (dl : Bool)
    (src : List α) (hI : Bool) :
    windowRun s s hs dl ⟨0, [], hI, src⟩ = batchRun s false src := by
  by_cases h : s ≤ src.length
  · have hnext : windowNext s s dl (⟨0, [], hI, src⟩ : WState α) =
        (some ((src.take s).map some), ⟨0, [], true, src.drop s⟩) := by
      rw [windowNext_start_full s s dl hI src hs h]
      rw [if_neg (Nat.lt_irrefl s), Nat.sub_self]
    rw [windowRun_of_some hnext,
        windowRun_stride_eq_batch s hs dl (src.drop s) true,
        batchRun_full_step s false src hs h]
  · push_neg at h
    by_cases hnil : src = []
    · subst hnil
      rw [windowRun_of_none (by rw [windowNext_stuck]), batchRun_nil s false hs]
    · have hnext := windowNext_start_short s s dl hI src hnil h
      rw [if_neg (by omega : ¬ s < src.length)] at hnext
      rw [windowRun_of_some hnext,
          windowRun_of_none (by rw [windowNext_stuck]),
          batchRun_false_small s src hs hnil h]
termination_by src.length
decreasing_by simp [List.length_drop]; omega

theorem drainWins_length {α : Type} (s : Nat) :
    ∀ w : List α, (drainWins s w).length = w.length := by
  intro w
  induction w with
  | nil => rfl
  | cons x t ih => simp only [drainWins, List.length_cons, ih]

theorem drainWins_get {α : Type} (s : Nat) :
    ∀ (w : List α) (i : Nat), i < w.length →
      (drainWins s w).get? i =
        some ((w.drop i).map some ++
          List.replicate (s - (w.length - i)) (none : Option α)) := by
  intro w
  induction w with
  | nil =>
      intro i h
      simp at h
  | cons x t ih =>
      intro i h
      cases i with
      | zero =>
          show some ((x :: t).map some ++ List.replicate (s - (t.length + 1)) none) = _
          simp only [List.drop_zero, List.length_cons, Nat.sub_zero]
      | succ i =>
          have hstep : (drainWins s (x :: t)).get? (i + 1) = (drainWins s t).get? i := rfl
          rw [hstep, ih i (by simpa using h)]
          simp only [List.drop_succ_cons, List.length_cons, Nat.succ_sub_succ_eq_sub]

theorem slideWins_length {α : Type} (s : Nat) :
    ∀ (rest w : List α), (slideWins s w rest).length = rest.length + w.length := by
  intro rest
  induction rest with
  | nil =>
      intro w
      show (drainWins s w).length = 0 + w.length
      rw [drainWins_length]
      omega
  | cons x rest ih =>
      intro w
      show ((w ++ [x]).map some :: slideWins s ((w ++ [x]).drop 1) rest).length = _
      rw [List.length_cons, ih]
      simp
      omega

theorem slideWins_get {α : Type} (s : Nat) :
    ∀ (rest w : List α) (i : Nat), w.length + 1 = s → i < rest.length + w.length →
      (slideWins s w rest).get? i =
        some ((((w ++ rest).drop i).take s).map some ++
          List.replicate (s - ((w ++ rest).length - i)) (none : Option α)) := by
  intro rest
  induction rest with
  | nil =>
      intro w i hw hi
      simp only [List.length_nil, Nat.zero_add] at hi
      show (drainWins s w).get? i = _
      have htake : (w.drop i).take s = w.drop i :=
        List.take_of_length_le (by simp [List.length_drop]; omega)
      rw [drainWins_get s w i hi, List.append_nil, htake]
  | cons x rest ih =>
      intro w i hw hi
      cases i with
      | zero =>
          show some ((w ++ [x]).map some) = _
          have hrep : s - ((w ++ x :: rest).length - 0) = 0 := by
            simp
            omega
          rw [List.drop_zero, hrep, List.replicate_zero, List.append_nil]
          have htake : (w ++ x :: rest).take s = w ++ [x] := by
            rw [← hw]
            exact List.take_append 1
          rw [htake]
      | succ i =>
          have hstep : (slideWins s w (x :: rest)).get? (i + 1) =
              (slideWins s ((w ++ [x]).drop 1) rest).get? i := rfl
          have hw2 : ((w ++ [x]).drop 1).length + 1 = s := by simp; omega
          rw [hstep, ih ((w ++ [x]).drop 1) i hw2 (by
            simp only [List.length_cons] at hi
            simp only [List.length_drop, List.length_append, List.length_cons,
              List.length_nil]
            omega)]
          have e1 : (w ++ [x]).drop 1 ++ rest = (w ++ x :: rest).drop 1 := by
            have hassoc : w ++ x :: rest = (w ++ [x]) ++ rest := by simp
            rw [hassoc, List.drop_append_of_le_length (by simp : 1 ≤ (w ++ [x]).length)]
          rw [e1, List.drop_drop, Nat.add_comm 1 i, List.length_drop]
          have hc : (w ++ x :: rest).length - 1 - i = (w ++ x :: rest).length - (i + 1) := by
            omega
          rw [hc]

/-- The drain phase of a stride-1, `drop_last = true` run: once upstream
is exhausted, the retained buffer is emitted and shortened one record per
call until it empties. -/
theorem windowRun_drain {α : Type} (s : Nat) :
    ∀ w : List α, w.length < s →
      windowRun s 1 Nat.one_pos true ⟨0, w, true, []⟩ = drainWins s w := by
  intro w
  induction w with
  | nil =>
      intro h
      exact windowRun_of_none (by rw [windowNext_stuck])
  | cons x t ih =>
      intro h
      rw [windowRun_of_some (windowNext_drain_step s x t h),
          ih (by simp only [List.length_cons] at h; omega)]
      rfl

/-- Stride-1 invariant: from a state retaining the last `s - 1` records of
the previous window, the run emits the sliding windows over the retained
tail plus the remaining upstream, followed by the drain-phase partial
windows. -/
theorem windowRun_slide {α : Type} (s : Nat) :
    ∀ (rest w : List α), w.length + 1 = s →
      windowRun s 1 Nat.one_pos true ⟨0, w, true, rest⟩ = slideWins s w rest := by
  intro rest
  induction rest with
  | nil =>
      intro w hw
      show _ = drainWins s w
      exact windowRun_drain s w (by omega)
  | cons x rest ih =>
      intro w hw
      have hfill : windowFill s true 0 w (x :: rest) true = (0, w ++ [x], rest, true) := by
        rw [windowFill_fills s true (x :: rest) w true (by omega) (by simp; omega)]
        have hsz : s - w.length = 1 := by omega
        rw [hsz]
        rfl
      have hlen : (w ++ [x]).length = s := by simp; omega
      have hnx : windowNext s 1 true (⟨0, w, true, x :: rest⟩ : WState α) =
          (some ((w ++ [x]).map some), ⟨0, (w ++ [x]).drop 1, true, rest⟩) := by
        simp only [windowNext, hfill]
        have hne : (w ++ [x]).isEmpty = false := by cases w <;> rfl
        simp only [hne, Bool.not_true, Bool.or_false, if_neg Bool.false_ne_true]
        rw [insertAll_fresh s (w ++ [x]) (le_of_eq hlen), hlen, Nat.sub_self]
        simp only [List.replicate_zero, List.append_nil]
        by_cases h1 : 1 < s
        · rw [if_pos h1]
        · rw [if_neg h1]
          have hs1 : s = 1 := by omega
          have hw0 : w = [] := List.length_eq_zero.mp (by omega)
          subst hw0
          rw [hs1]
          rfl
      rw [windowRun_of_some hnx, ih ((w ++ [x]).drop 1) (by simp; omega)]
      rfl

/-- The `stride = 1`, `drop_last = true` run over at least `s` records:
first window plus the sliding-and-drain continuation. -/
theorem windowRun_one_stride {α : Type} (s : Nat) (hs : 0 < s) (src : List α)
    (h : s ≤ src.length) :
    windowRun s 1 Nat.one_pos true ⟨0, [], false, src⟩ =
      ((src.take s).map some) :: slideWins s ((src.take s).drop 1) (src.drop s) := by
  have hnext : windowNext s 1 true (⟨0, [], false, src⟩ : WState α) =
      (some ((src.take s).map some), ⟨0, (src.take s).drop 1, true, src.drop s⟩) := by
    rw [windowNext_start_full s 1 true false src hs h]
    by_cases h1 : 1 < s
    · rw [if_pos h1]
    · have hs1 : s = 1 := by omega
      subst hs1
      rw [if_neg h1]
      have hd : (src.take 1).drop 1 = [] := by
        rw [List.drop_take]
        simp
      rw [hd]
  rw [windowRun_of_some hnext]
  congr 1
  exact windowRun_slide s (src.drop s) ((src.take s).drop 1)
    (by simp [List.length_take_of_le h]; omega)

/-! ### Claim C2 -/

/-- Claim C2: for every input sequence and every `batch_size = b > 0`,
iterating the batch operator with `drop_last = true` emits exactly
`⌊n/b⌋` batches, each a fully-filled container of exactly `b` records,
and concatenating the batches' records in emission order reproduces the
first `b * ⌊n/b⌋` input records in their original order. -/
theorem claim_C2_batch_drop_last (α : Type) (b : Nat) (hb : 0 < b) (src : List α) :
    (batchRun b true src).length = src.length / b ∧
    (∀ w ∈ batchRun b true src, ∃ chunk : List α, chunk.length = b ∧ w = chunk.map some) ∧
    ((batchRun b true src).map (fun w => w.filterMap id)).flatten =
      src.take (b * (src.length / b)) :=
  ⟨batchRun_true_length b hb src, batchRun_true_mem b hb src,
   batchRun_true_concat b hb src⟩

/-- Witness for claim C2: `b = 2` over five records. -/
theorem claim_C2_batch_drop_last_witness :
    (0 : Nat) < 2 ∧
    ((batchRun 2 true [0, 1, 2, 3, 4]).length = [0, 1, 2, 3, 4].length / 2 ∧
     (∀ w ∈ batchRun 2 true [0, 1, 2, 3, 4],
       ∃ chunk : List Nat, chunk.length = 2 ∧ w = chunk.map some) ∧
     ((batchRun 2 true [0, 1, 2, 3, 4]).map (fun w => w.filterMap id)).flatten =
       [0, 1, 2, 3, 4].take (2 * ([0, 1, 2, 3, 4].length / 2))) :=
  ⟨by decide, claim_C2_batch_drop_last Nat 2 (by decide) [0, 1, 2, 3, 4]⟩

/-! ### Claim C3 -/

/-- Claim C3 (counterexample): with `drop_last = false`, one record and
`batch_size = 2`, the single emitted final batch is the full-capacity
container `[some 0, none]` of length 2 — not trimmed to the claimed
size `n mod b = 1`. -/
theorem claim_C3_partial_not_trimmed :
    batchRun 2 false [(0 : Nat)] = [[some 0, none]] ∧
    ([some (0 : Nat), none] : List (Option Nat)).length ≠ 1 % 2 := by
  constructor
  · have h1 : batchRun 2 false [(0 : Nat)] = [some 0, none] :: batchRun 2 false [] :=
      batchRun_of_some rfl
    have h2 : batchRun 2 false ([] : List Nat) = [] := batchRun_of_none rfl
    rw [h1, h2]
  · decide

/-- Claim C3 (amended): with `drop_last = false` and `n mod b ≠ 0`, after
the `⌊n/b⌋` full batches exactly one extra final batch is emitted; it is
not trimmed: the container keeps the full fixed capacity `b`, its first
`n mod b` slots holding the remaining input records in order and its
trailing `b - n mod b` slots left unfilled (`None`). -/
theorem claim_C3_partial_at_capacity (α : Type) (b : Nat) (hb : 0 < b)
    (src : List α) (hmod : src.length % b ≠ 0) :
    batchRun b false src =
      batchRun b true src ++
        [(src.drop (b * (src.length / b))).map some ++
          List.replicate (b - src.length % b) (none : Option α)] :=
  batchRun_false_split b hb src hmod

/-- Witness for the amended claim C3: `b = 2` over three records. -/
theorem claim_C3_partial_at_capacity_witness :
    ((0 : Nat) < 2 ∧ [0, 1, 2].length % 2 ≠ 0) ∧
    batchRun 2 false [0, 1, 2] =
      batchRun 2 true [0, 1, 2] ++
        [([0, 1, 2].drop (2 * ([0, 1, 2].length / 2))).map some ++
          List.replicate (2 - [0, 1, 2].length % 2) (none : Option Nat)] :=
  ⟨⟨by decide, by decide⟩,
   claim_C3_partial_at_capacity Nat 2 (by decide) [0, 1, 2] (by decide)⟩

/-! ### Claim C4 -/

/-- Claim C4 (counterexample): with `s = 2`, `stride = 1`,
`drop_last = true` over `[0, 1, 2]`, the code emits **three** windows —
the two full sliding windows and then the trailing partial
`[some 2, none]` — not `n - s + 1 = 2`: exhaustion at the regular pull
(skip counter zero) breaks the outer fill loop directly, bypassing the
`drop_last` clearing, so the retained partial buffer is emitted rather
than exhaustion being signalled. -/
theorem claim_C4_trailing_partial_cex :
    windowRun 2 1 Nat.one_pos true ⟨0, [], false, [0, 1, 2]⟩ =
      [[some 0, some 1], [some 1, some 2], [some 2, none]] ∧
    ([[some 0, some 1], [some 1, some 2], [some 2, none]] :
        List (List (Option Nat))).length ≠ [0, 1, 2].length - 2 + 1 ∧
    (windowNext 2 1 true (⟨0, [2], true, []⟩ : WState Nat)).1 ≠ none := by
  have h0 : windowNext 2 1 true (⟨0, [], false, [0, 1, 2]⟩ : WState Nat) =
      (some [some 0, some 1], ⟨0, [1], true, [2]⟩) := rfl
  have h1 : windowNext 2 1 true (⟨0, [1], true, [2]⟩ : WState Nat) =
      (some [some 1, some 2], ⟨0, [2], true, []⟩) := rfl
  have h2 : windowNext 2 1 true (⟨0, [2], true, []⟩ : WState Nat) =
      (some [some 2, none], ⟨0, [], true, []⟩) := rfl
  have h3 : (windowNext 2 1 true (⟨0, [], true, []⟩ : WState Nat)).1 = none := rfl
  refine ⟨?_, by decide, by decide⟩
  rw [windowRun_of_some h0, windowRun_of_some h1, windowRun_of_some h2,
      windowRun_of_none h3]

/-- Claim C4 (amended): with `stride = 1` and `drop_last = true` over
`n ≥ s` records, the first `n - s + 1` emitted windows are the claimed
full sliding windows (window `i` holding records `i .. i+s-1`), but the
iterator does not stop there: because exhaustion at a regular pull
bypasses the `drop_last` clearing, it goes on to drain `s - 1` trailing
partial windows, emitting in total exactly `n` windows, the `j`-th
holding records `j .. min(j+s, n)-1` with any remaining capacity
unfilled (`None`).  The `drop_last` discard takes effect only when the
upstream is exhausted while a stride-skip is still pending (or the
buffer is empty). -/
theorem claim_C4_full_windows_then_drain (α : Type) (s : Nat) (hs : 0 < s)
    (src : List α) (hn : s ≤ src.length) :
    (windowRun s 1 Nat.one_pos true ⟨0, [], false, src⟩).length = src.length ∧
    (∀ j : Nat, j < src.length →
      (windowRun s 1 Nat.one_pos true ⟨0, [], false, src⟩).get? j =
        some (((src.drop j).take s).map some ++
          List.replicate (s - (src.length - j)) (none : Option α))) ∧
    (∀ (k : Nat) (w : List α) (hI : Bool), w.length < s →
      (windowNext s 1 true ⟨k + 1, w, hI, []⟩).1 = none) := by
  have hrun := windowRun_one_stride s hs src hn
  have hwlen : ((src.take s).drop 1).length = s - 1 := by
    simp [List.length_take_of_le hn]
  refine ⟨?_, ?_, ?_⟩
  · rw [hrun, List.length_cons, slideWins_length, List.length_drop, hwlen]
    omega
  · intro j hj
    rw [hrun]
    cases j with
    | zero =>
        show some ((src.take s).map some) = _
        have hrep : s - (src.length - 0) = 0 := by omega
        rw [List.drop_zero, hrep, List.replicate_zero, List.append_nil]
    | succ j =>
        have hstep : (((src.take s).map some) ::
            slideWins s ((src.take s).drop 1) (src.drop s)).get? (j + 1) =
            (slideWins s ((src.take s).drop 1) (src.drop s)).get? j := rfl
        rw [hstep, slideWins_get s (src.drop s) ((src.take s).drop 1) j
            (by rw [hwlen]; omega)
            (by rw [List.length_drop, hwlen]; omega)]
        have hglue : (src.take s).drop 1 ++ src.drop s = src.drop 1 := by
          rw [List.drop_take]
          have hd : src.drop s = (src.drop 1).drop (s - 1) := by
            rw [List.drop_drop]
            congr 1
            omega
          rw [hd, List.take_append_drop]
        rw [hglue, List.drop_drop, List.length_drop]
        have h1 : 1 + j = j + 1 := by omega
        have h2 : src.length - 1 - j = src.length - (j + 1) := by omega
        rw [h1, h2]
  · intro k w hI hw
    exact windowNext_skip_exhaust s 1 k w hI hw

/-- Witness for the amended claim C4: `s = 2` over three records. -/
theorem claim_C4_full_windows_then_drain_witness :
    ((0 : Nat) < 2 ∧ 2 ≤ [0, 1, 2].length) ∧
    ((windowRun 2 1 Nat.one_pos true ⟨0, [], false, [0, 1, 2]⟩).length =
      [0, 1, 2].length ∧
    (∀ j : Nat, j < [0, 1, 2].length →
      (windowRun 2 1 Nat.one_pos true ⟨0, [], false, [0, 1, 2]⟩).get? j =
        some ((([0, 1, 2].drop j).take 2).map some ++
          List.replicate (2 - ([0, 1, 2].length - j)) (none : Option Nat))) ∧
    (∀ (k : Nat) (w : List Nat) (hI : Bool), w.length < 2 →
      (windowNext 2 1 true ⟨k + 1, w, hI, []⟩).1 = none)) :=
  ⟨⟨by decide, by decide⟩,
   claim_C4_full_windows_then_drain Nat 2 (by decide) [0, 1, 2] (by decide)⟩

/-! ### Claim C5 -/

/-- Claim C5 (counterexample): with `s = 2` and `drop_last = true` over
`[0, 1, 2]`, `window(size=2, stride=2)` emits `[[0,1], [2, None]]` —
the trailing partial group survives because exhaustion at the regular
pull bypasses the window's `drop_last` clearing — while
`batch(batch_size=2, drop_last=true)` emits only `[[0,1]]`: the claimed
same-`drop_last` grouping equivalence fails for `drop_last = true`. -/
theorem claim_C5_drop_last_divergence_cex :
    windowRun 2 2 (by decide) true ⟨0, [], false, [0, 1, 2]⟩ =
      [[some 0, some 1], [some 2, none]] ∧
    batchRun 2 true [0, 1, 2] = [[some 0, some 1]] ∧
    ([[some 0, some 1], [some 2, none]] : List (List (Option Nat))) ≠
      [[some 0, some 1]] := by
  have h0 : windowNext 2 2 true (⟨0, [], false, [0, 1, 2]⟩ : WState Nat) =
      (some [some 0, some 1], ⟨0, [], true, [2]⟩) := rfl
  have h1 : windowNext 2 2 true (⟨0, [], true, [2]⟩ : WState Nat) =
      (some [some 2, none], ⟨1, [], true, []⟩) := rfl
  have h2 : (windowNext 2 2 true (⟨1, [], true, []⟩ : WState Nat)).1 = none := rfl
  have hb0 : batchNext 2 true [0, 1, 2] = (some [some 0, some 1], [2]) := rfl
  have hb1 : (batchNext 2 true [2]).1 = none := rfl
  refine ⟨?_, ?_, by decide⟩
  · rw [windowRun_of_some h0, windowRun_of_some h1, windowRun_of_none h2]
  · rw [batchRun_of_some hb0, batchRun_of_none hb1]

/-- Claim C5 (amended): for every input and every `s > 0`, the window
operator with `size = s`, `stride = s` emits exactly the same groups as
the batch operator with `batch_size = s` and `drop_last = false`,
whatever the window's own `drop_last` flag: with `stride = size`,
upstream exhaustion always hits a regular pull, which bypasses the
window's `drop_last` discard, so the final partial group is always
emitted.  The claimed same-`drop_last` equivalence therefore holds for
`drop_last = false` (instantiate `dl := false`) and fails for
`drop_last = true`. -/
theorem claim_C5_tiling_eq_batch_drop_false (α : Type) (s : Nat) (hs : 0 < s)
    (dl : Bool) (src : List α) :
    windowRun s s hs dl ⟨0, [], false, src⟩ = batchRun s false src :=
  windowRun_stride_eq_batch s hs dl src false

/-- Witness for the amended claim C5: `s = 2`, both window `drop_last`
settings, over three records. -/
theorem claim_C5_tiling_eq_batch_drop_false_witness :
    (0 : Nat) < 2 ∧
    windowRun 2 2 (by decide) true ⟨0, [], false, [0, 1, 2]⟩ =
      batchRun 2 false [0, 1, 2] ∧
    windowRun 2 2 (by decide) false ⟨0, [], false, [0, 1, 2]⟩ =
      batchRun 2 false [0, 1, 2] :=
  ⟨by decide,
   claim_C5_tiling_eq_batch_drop_false Nat 2 (by decide) true [0, 1, 2],
   claim_C5_tiling_eq_batch_drop_false Nat 2 (by decide) false [0, 1, 2]⟩

end TorchData
